import Mathlib

/-!
Shallow embedding of `src/app/main.py` of dev-workflows: the week-key
normalizer (`monday_of_week`, `parse_week_start`), the plan store
(`fetch_plan`, `upsert_plan`) and the contact store (`fetch_contacts`,
`insert_contact`, and the role coercion of `ui_add_contact`).

Calendar dates are modelled by their proleptic Gregorian ordinal
(a `Nat`; day 1 = 0001-01-01, which is a Monday), matching Python
`datetime.date.toordinal`.  The backing database tables are modelled as
explicit lists of rows passed through each operation; values the
database generates (`gen_random_uuid()`, `now()`) are explicit inputs.
-/

namespace DevWorkflows

/-- Python `date.weekday()`: Monday = 0 … Sunday = 6.  CPython computes
`(self.toordinal() + 6) % 7` on the proleptic Gregorian ordinal. -/
def weekday (o : Nat) : Nat := (o + 6) % 7

/-- `monday_of_week` from `src/app/main.py`:
`d - timedelta(days=d.weekday())`. -/
def monday_of_week (o : Nat) : Nat := o - weekday o

/-- Gregorian leap-year test (Python `datetime._is_leap`). -/
def isLeap (y : Nat) : Bool := y % 4 == 0 && (y % 100 != 0 || y % 400 == 0)

/-- Days in month `m` of year `y` (Python `datetime._days_in_month`). -/
def daysInMonth (y m : Nat) : Nat :=
  if m = 2 then (if isLeap y then 29 else 28)
  else if m = 4 ∨ m = 6 ∨ m = 9 ∨ m = 11 then 30
  else 31

/-- Days before January 1 of year `y` (Python `datetime._days_before_year`). -/
def daysBeforeYear (y : Nat) : Nat :=
  365 * (y - 1) + (y - 1) / 4 - (y - 1) / 100 + (y - 1) / 400

/-- Days in year `y` preceding the first of month `m`
(Python `datetime._days_before_month`). -/
def daysBeforeMonth (y m : Nat) : Nat :=
  (match m with
   | 1 => 0 | 2 => 31 | 3 => 59 | 4 => 90 | 5 => 120 | 6 => 151
   | 7 => 181 | 8 => 212 | 9 => 243 | 10 => 273 | 11 => 304 | 12 => 334
   | _ => 0)
  + (if 2 < m ∧ isLeap y then 1 else 0)

/-- Python `date(y, m, d).toordinal()`. -/
def toOrdinal (y m d : Nat) : Nat := daysBeforeYear y + daysBeforeMonth y m + d

/-- Numeric value of an ASCII digit character. -/
def digitVal (c : Char) : Nat := c.toNat - 48

/-- Modelled from Python `_strptime`: the fragment matched by `%m`, whose
regex is `1[0-2]|0[1-9]|[1-9]` (alternatives tried left to right; digits
modelled as ASCII).  Returns the month value and the unconsumed input. -/
def matchMonth : List Char → Option (Nat × List Char)
  | c1 :: c2 :: rest =>
    if c1 = '1' ∧ '0' ≤ c2 ∧ c2 ≤ '2' then some (10 + digitVal c2, rest)
    else if c1 = '0' ∧ '1' ≤ c2 ∧ c2 ≤ '9' then some (digitVal c2, rest)
    else if '1' ≤ c1 ∧ c1 ≤ '9' then some (digitVal c1, c2 :: rest)
    else none
  | [c1] => if '1' ≤ c1 ∧ c1 ≤ '9' then some (digitVal c1, []) else none
  | [] => none

/-- Modelled from Python `_strptime`: the fragment matched by `%d`, whose
regex is `3[01]|[12]\d|0[1-9]|[1-9]` (digits modelled as ASCII). -/
def matchDay : List Char → Option (Nat × List Char)
  | c1 :: c2 :: rest =>
    if c1 = '3' ∧ (c2 = '0' ∨ c2 = '1') then some (30 + digitVal c2, rest)
    else if ('1' ≤ c1 ∧ c1 ≤ '2') ∧ c2.isDigit then
      some (10 * digitVal c1 + digitVal c2, rest)
    else if c1 = '0' ∧ '1' ≤ c2 ∧ c2 ≤ '9' then some (digitVal c2, rest)
    else if '1' ≤ c1 ∧ c1 ≤ '9' then some (digitVal c1, c2 :: rest)
    else none
  | [c1] => if '1' ≤ c1 ∧ c1 ≤ '9' then some (digitVal c1, []) else none
  | [] => none

/-- Modelled from Python `datetime.strptime(value, "%Y-%m-%d").date()`:
`%Y` matches exactly four (ASCII) digits, the two `-` are literal, the
whole string must be consumed (`unconverted data remains` otherwise),
and the matched `(y, m, d)` must be a valid calendar date with `1 ≤ y`
(the `datetime` constructor raises `ValueError` otherwise).  Returns the
proleptic Gregorian ordinal of the parsed date, or `none` where Python
raises `ValueError`. -/
def strptimeYMD (s : String) : Option Nat :=
  match s.data with
  | c1 :: c2 :: c3 :: c4 :: '-' :: rest =>
    if c1.isDigit ∧ c2.isDigit ∧ c3.isDigit ∧ c4.isDigit then
      match matchMonth rest with
      | some (m, '-' :: rest2) =>
        match matchDay rest2 with
        | some (d, []) =>
          let y := 1000 * digitVal c1 + 100 * digitVal c2 + 10 * digitVal c3 + digitVal c4
          if 1 ≤ y ∧ d ≤ daysInMonth y m then some (toOrdinal y m d) else none
        | _ => none
      | _ => none
    else none
  | _ => none

/-- `parse_week_start` from `src/app/main.py`.  `today` is the value of
`date.today()` (the server-local current date), passed explicitly so the
function is pure.  `None` and the empty string are both falsy in Python
(`if not value`); a `ValueError` from `strptime` falls back to today. -/
def parse_week_start (today : Nat) (value : Option String) : Nat :=
  match value with
  | none => monday_of_week today
  | some s =>
    if s = "" then monday_of_week today
    else
      match strptimeYMD s with
      | some d => monday_of_week d
      | none => monday_of_week today

/-- A row of the `public.weekly_plans` table (the four text columns are
nullable; `updated_at` is not modelled, no claim mentions it). -/
structure PlanRow where
  account_id : String
  week_start : Nat
  objectives : Option String
  actions : Option String
  objections : Option String
  recap : Option String
deriving DecidableEq, Repr

/-- The `where account_id = %s and week_start = %s` row condition shared
by `fetch_plan` and the `on conflict (account_id, week_start)` clause. -/
def planKeyMatches (a : String) (w : Nat) (r : PlanRow) : Bool :=
  r.account_id == a && r.week_start == w

/-- The dict returned by `fetch_plan`. -/
structure PlanResult where
  objectives : Option String
  actions : Option String
  objections : Option String
  recap : Option String
deriving DecidableEq, Repr

/-- `fetch_plan` from `src/app/main.py`: `select objectives, actions,
objections, recap from public.weekly_plans where account_id = %s and
week_start = %s limit 1` followed by `fetchone()`; every field is `None`
when no row matches. -/
def fetch_plan (table : List PlanRow) (account_id : String) (week_start : Nat) :
    PlanResult :=
  match table.find? (planKeyMatches account_id week_start) with
  | some r => ⟨r.objectives, r.actions, r.objections, r.recap⟩
  | none => ⟨none, none, none, none⟩

/-- `upsert_plan` from `src/app/main.py`: `insert into public.weekly_plans
… on conflict (account_id, week_start) do update set objectives =
excluded.objectives, …`.  When a row with the key exists its four text
columns are replaced with the excluded (new) values; otherwise a new row
is inserted. -/
def upsert_plan (table : List PlanRow) (account_id : String) (week_start : Nat)
    (objectives actions objections recap : Option String) : List PlanRow :=
  if table.any (planKeyMatches account_id week_start) then
    table.map fun r =>
      if planKeyMatches account_id week_start r then
        { r with objectives := objectives, actions := actions,
                 objections := objections, recap := recap }
      else r
  else table ++ [⟨account_id, week_start, objectives, actions, objections, recap⟩]

/-- Number of stored rows carrying the key `(a, w)`.  The unique
constraint `on conflict (account_id, week_start)` relies on means this is
at most 1 for every reachable table state. -/
def countKey (table : List PlanRow) (a : String) (w : Nat) : Nat :=
  (table.filter (planKeyMatches a w)).length

/-- A row of the `public.contacts` table (see `ensure_contacts_table`). -/
structure Contact where
  id : String
  account_id : String
  name : String
  role : String
  phone : Option String
  email : Option String
  notes : Option String
  created_at : Nat
deriving DecidableEq, Repr

/-- The dict built by `fetch_contacts` (the columns its query selects). -/
structure ContactOut where
  id : String
  name : String
  role : String
  phone : Option String
  email : Option String
  notes : Option String
deriving DecidableEq, Repr

/-- Projection of a stored row to the columns `fetch_contacts` selects. -/
def contactOut (c : Contact) : ContactOut :=
  ⟨c.id, c.name, c.role, c.phone, c.email, c.notes⟩

/-- `insert_contact` from `src/app/main.py`: appends one row.  `id`
(database default `gen_random_uuid()`) and `created_at` (database default
`now()`) are generated by the backing store and modelled as explicit
inputs.  (`ensure_contacts_table` only provisions the schema and does not
change the rows, so it is a no-op here.) -/
def insert_contact (table : List Contact) (id : String) (created_at : Nat)
    (account_id name role : String) (phone email notes : Option String) :
    List Contact :=
  table ++ [⟨id, account_id, name, role, phone, email, notes, created_at⟩]

/-- The `order by created_at desc` comparison of the `fetch_contacts`
query. -/
def createdDesc (x y : Contact) : Prop := y.created_at ≤ x.created_at

instance : DecidableRel createdDesc := fun x y =>
  inferInstanceAs (Decidable (y.created_at ≤ x.created_at))

/-- `fetch_contacts` from `src/app/main.py`: the rows of the account,
ordered by `created_at desc`, projected to the selected columns. -/
def fetch_contacts (table : List Contact) (account_id : String) :
    List ContactOut :=
  (List.insertionSort createdDesc
    (table.filter fun c => c.account_id == account_id)).map contactOut

/-- Python `str.strip()` with no argument, at ASCII: remove leading and
trailing whitespace characters. -/
def pyIsSpace (c : Char) : Bool :=
  c = ' ' || c = '\t' || c = '\n' || c = '\r' || c = '\x0b' || c = '\x0c'

/-- Python `str.strip()` (ASCII whitespace). -/
def strip (s : String) : String :=
  ⟨((s.data.dropWhile pyIsSpace).reverse.dropWhile pyIsSpace).reverse⟩

/-- Python `str.lower()` at ASCII. -/
def asciiLower (c : Char) : Char :=
  if 'A' ≤ c ∧ c ≤ 'Z' then Char.ofNat (c.toNat + 32) else c

/-- Python `str.lower()` (ASCII). -/
def lower (s : String) : String := ⟨s.data.map asciiLower⟩

/-- The role allowlist coercion inside `ui_add_contact`:
`role = (role or "").strip().lower()`, defaulted to `"buyer"` when the
result is not in `{"buyer", "manager", "owner"}`.  (`role or ""` only
replaces a falsy value by `""`, which strips to `""` itself.) -/
def normalizeRole (role : String) : String :=
  if lower (strip role) = "buyer" ∨ lower (strip role) = "manager" ∨
      lower (strip role) = "owner" then
    lower (strip role)
  else "buyer"

/-- The storage effect of the `ui_add_contact` handler from
`src/app/main.py`: coerce the submitted role through the allowlist, then
`insert_contact`.  (The handler's `parse_week_start` call and redirect
only shape the HTTP response and never touch the contact table.) -/
def ui_add_contact (table : List Contact) (id : String) (created_at : Nat)
    (account_id name role : String) (phone email notes : Option String) :
    List Contact :=
  insert_contact table id created_at account_id name (normalizeRole role)
    phone email notes

example : normalizeRole "Manager " = "manager" := by decide
example : normalizeRole "admin" = "buyer" := by decide
example : strptimeYMD "2024-01-01" = some 738886 := by decide
example : strptimeYMD "2024-1-5" = some 738890 := by decide
example : strptimeYMD "2024/01/01" = none := by decide
example : strptimeYMD "Jan 1, 2024" = none := by decide
example : strptimeYMD "2024-02-30" = none := by decide
example : strptimeYMD "2024-02-29" = some (toOrdinal 2024 2 29) := by decide
example : strptimeYMD "2023-02-29" = none := by decide
example : strptimeYMD "0000-01-01" = none := by decide
example : strptimeYMD "2024-01-011" = none := by decide
example : strptimeYMD "" = none := by decide
example : weekday 738886 = 0 := by decide

/-! Helper lemmas. -/

lemma parse_week_start_some (today : Nat) (s : String) :
    parse_week_start today (some s) =
      if s = "" then monday_of_week today
      else
        match strptimeYMD s with
        | some d => monday_of_week d
        | none => monday_of_week today := rfl

lemma find?_eq_head?_filter {α : Type} (p : α → Bool) (l : List α) :
    l.find? p = (l.filter p).head? := by
  induction l with
  | nil => rfl
  | cons x t ih =>
    cases hp : p x
    · rw [List.find?_cons_of_neg _ (by simp [hp]), List.filter_cons_of_neg (by simp [hp])]
      exact ih
    · rw [List.find?_cons_of_pos _ hp, List.filter_cons_of_pos hp]
      rfl

lemma find?_map_of_fix {α : Type} (g : α → α) (p : α → Bool) (l : List α)
    (h1 : ∀ x, p (g x) = p x) (h2 : ∀ x, p x = true → g x = x) :
    (l.map g).find? p = l.find? p := by
  induction l with
  | nil => rfl
  | cons x t ih =>
    rw [List.map_cons]
    cases hp : p x
    · rw [List.find?_cons_of_neg _ (by simp [h1, hp]),
        List.find?_cons_of_neg _ (by simp [hp])]
      exact ih
    · rw [h2 x hp, List.find?_cons_of_pos _ hp, List.find?_cons_of_pos _ hp]

/-- The record update performed by the `do update set` branch keeps the
key columns, so key matching is invariant under it. -/
lemma planKeyMatches_update (a : String) (w : Nat)
    (o ac ob rc : Option String) (x : PlanRow) :
    planKeyMatches a w
      (if planKeyMatches a w x then
        { x with objectives := o, actions := ac, objections := ob, recap := rc }
      else x) = planKeyMatches a w x := by
  cases hx : planKeyMatches a w x
  · simp [hx]
  · simpa [hx, planKeyMatches] using hx

/-- Under the table's unique key (at most one row per `(a, w)`), the rows
matching the key after an upsert are exactly one row holding the new
field values. -/
lemma upsert_filter_key (table : List PlanRow) (a : String) (w : Nat)
    (o ac ob rc : Option String) (h : countKey table a w ≤ 1) :
    (upsert_plan table a w o ac ob rc).filter (planKeyMatches a w) =
      [⟨a, w, o, ac, ob, rc⟩] := by
  unfold upsert_plan
  cases hAny : table.any (planKeyMatches a w)
  · have hnil : table.filter (planKeyMatches a w) = [] :=
      List.filter_eq_nil_iff.mpr (List.any_eq_false.mp hAny)
    simp only [hAny, Bool.false_eq_true, if_false, List.filter_append, hnil,
      List.nil_append]
    have : planKeyMatches a w ⟨a, w, o, ac, ob, rc⟩ = true := by
      simp [planKeyMatches]
    simp [List.filter_cons, this]
  · simp only [hAny, if_true]
    rw [List.filter_map]
    have hcomp : ∀ x : PlanRow,
        (planKeyMatches a w ∘ fun r =>
          if planKeyMatches a w r then
            { r with objectives := o, actions := ac, objections := ob, recap := rc }
          else r) x = planKeyMatches a w x := by
      intro x
      simpa using planKeyMatches_update a w o ac ob rc x
    rw [List.filter_congr fun x _ => hcomp x]
    have hone : (table.filter (planKeyMatches a w)).length = 1 := by
      have hge : table.filter (planKeyMatches a w) ≠ [] := by
        obtain ⟨x, hx, hpx⟩ := List.any_eq_true.mp hAny
        exact List.ne_nil_of_mem (List.mem_filter.mpr ⟨hx, hpx⟩)
      have := List.length_pos.mpr hge
      have hle : (table.filter (planKeyMatches a w)).length ≤ 1 := h
      omega
    obtain ⟨r0, hr0⟩ := List.length_eq_one.mp hone
    have hpr0 : planKeyMatches a w r0 = true := by
      have : r0 ∈ table.filter (planKeyMatches a w) := by
        rw [hr0]; exact List.mem_singleton.mpr rfl
      exact (List.mem_filter.mp this).2
    rw [hr0, List.map_cons, List.map_nil]
    have hkey : r0.account_id = a ∧ r0.week_start = w := by
      have := hpr0
      simp only [planKeyMatches, Bool.and_eq_true, beq_iff_eq] at this
      exact this
    rw [if_pos hpr0]
    cases r0
    simp_all

/-- `fetch_plan` after an upsert of the same key returns the new values
(under the table's unique key). -/
lemma fetch_after_upsert (table : List PlanRow) (a : String) (w : Nat)
    (o ac ob rc : Option String) (h : countKey table a w ≤ 1) :
    fetch_plan (upsert_plan table a w o ac ob rc) a w = ⟨o, ac, ob, rc⟩ := by
  unfold fetch_plan
  rw [find?_eq_head?_filter, upsert_filter_key table a w o ac ob rc h]
  rfl

lemma monday_of_week_idem (o : Nat) :
    monday_of_week (monday_of_week o) = monday_of_week o := by
  unfold monday_of_week weekday
  omega

/-! Claim theorems. -/

/-- Claim C1: upsert is an idempotent full-replace keyed by
`(account_id, week_start)`: under the table's unique key, after
`upsert(a, w, X)` then `upsert(a, w, Y)` exactly one row carries the key
`(a, w)` and its four text fields are `Y` (no merge with `X`); and two
identical `upsert(a, w, X)` calls leave exactly one row with fields `X`. -/
theorem upsert_full_replace (table : List PlanRow) (a : String) (w : Nat)
    (x1 x2 x3 x4 y1 y2 y3 y4 : Option String) (h : countKey table a w ≤ 1) :
    ((upsert_plan (upsert_plan table a w x1 x2 x3 x4) a w y1 y2 y3 y4).filter
        (planKeyMatches a w) = [⟨a, w, y1, y2, y3, y4⟩]) ∧
    fetch_plan (upsert_plan (upsert_plan table a w x1 x2 x3 x4) a w y1 y2 y3 y4) a w
      = ⟨y1, y2, y3, y4⟩ ∧
    ((upsert_plan (upsert_plan table a w x1 x2 x3 x4) a w x1 x2 x3 x4).filter
        (planKeyMatches a w) = [⟨a, w, x1, x2, x3, x4⟩]) := by
  have h1 : countKey (upsert_plan table a w x1 x2 x3 x4) a w ≤ 1 := by
    unfold countKey
    rw [upsert_filter_key table a w x1 x2 x3 x4 h]
    simp
  exact ⟨upsert_filter_key _ a w _ _ _ _ h1, fetch_after_upsert _ a w _ _ _ _ h1,
    upsert_filter_key _ a w _ _ _ _ h1⟩

theorem upsert_full_replace_witness :
    countKey [] "A1" 738886 ≤ 1 ∧
    (((upsert_plan (upsert_plan [] "A1" 738886 (some "x1") (some "x2") (some "x3")
          (some "x4")) "A1" 738886 (some "y1") (some "y2") (some "y3")
          (some "y4")).filter (planKeyMatches "A1" 738886) =
        [⟨"A1", 738886, some "y1", some "y2", some "y3", some "y4"⟩]) ∧
      fetch_plan (upsert_plan (upsert_plan [] "A1" 738886 (some "x1") (some "x2")
          (some "x3") (some "x4")) "A1" 738886 (some "y1") (some "y2") (some "y3")
          (some "y4")) "A1" 738886 = ⟨some "y1", some "y2", some "y3", some "y4"⟩ ∧
      ((upsert_plan (upsert_plan [] "A1" 738886 (some "x1") (some "x2") (some "x3")
          (some "x4")) "A1" 738886 (some "x1") (some "x2") (some "x3")
          (some "x4")).filter (planKeyMatches "A1" 738886) =
        [⟨"A1", 738886, some "x1", some "x2", some "x3", some "x4"⟩])) :=
  ⟨by decide, upsert_full_replace [] "A1" 738886 _ _ _ _ _ _ _ _ (by decide)⟩

/-- Claim C3: round trip on the plan store: when no row carries the key,
`fetch_plan` returns four `none` fields, and after a single upsert of the
key with given values `fetch_plan` returns exactly those values. -/
theorem plan_roundtrip (table : List PlanRow) (a : String) (w : Nat)
    (o ac ob rc : Option String)
    (h : table.any (planKeyMatches a w) = false) :
    fetch_plan table a w = ⟨none, none, none, none⟩ ∧
    fetch_plan (upsert_plan table a w o ac ob rc) a w = ⟨o, ac, ob, rc⟩ := by
  have hcount : countKey table a w ≤ 1 := by
    unfold countKey
    rw [List.filter_eq_nil_iff.mpr (List.any_eq_false.mp h)]
    simp
  refine ⟨?_, fetch_after_upsert table a w o ac ob rc hcount⟩
  unfold fetch_plan
  rw [List.find?_eq_none.mpr (List.any_eq_false.mp h)]

theorem plan_roundtrip_witness :
    ([] : List PlanRow).any (planKeyMatches "A1" 738886) = false ∧
    (fetch_plan [] "A1" 738886 = ⟨none, none, none, none⟩ ∧
      fetch_plan (upsert_plan [] "A1" 738886 (some "grow pipeline")
          (some "call weekly") (some "price objection") (some "")) "A1" 738886 =
        ⟨some "grow pipeline", some "call weekly", some "price objection",
          some ""⟩) :=
  ⟨by decide, plan_roundtrip [] "A1" 738886 _ _ _ _ (by decide)⟩

/-- Claim C5: a missing row is never an error: for every key with no
stored row, `fetch_plan` returns a record whose four fields are all
`none` (the function is total, so the lookup itself always succeeds). -/
theorem fetch_plan_missing_row (table : List PlanRow) (a : String) (w : Nat)
    (h : table.any (planKeyMatches a w) = false) :
    fetch_plan table a w = ⟨none, none, none, none⟩ := by
  unfold fetch_plan
  rw [List.find?_eq_none.mpr (List.any_eq_false.mp h)]

theorem fetch_plan_missing_row_witness :
    ([⟨"A2", 738886, some "o", none, none, none⟩] : List PlanRow).any
      (planKeyMatches "A1" 738886) = false ∧
    fetch_plan [⟨"A2", 738886, some "o", none, none, none⟩] "A1" 738886 =
      ⟨none, none, none, none⟩ :=
  ⟨by decide, fetch_plan_missing_row _ "A1" 738886 (by decide)⟩

/-- Claim C6: upsert is framed to its own key: an upsert of
`(a1, w1)` leaves `fetch_plan` at any other key `(a2, w2)` unchanged
(different week of the same account, or any other account). -/
theorem upsert_isolation (table : List PlanRow) (a1 a2 : String) (w1 w2 : Nat)
    (o ac ob rc : Option String) (h : ¬(a2 = a1 ∧ w2 = w1)) :
    fetch_plan (upsert_plan table a1 w1 o ac ob rc) a2 w2 =
      fetch_plan table a2 w2 := by
  have hsymm : ¬(a1 = a2 ∧ w1 = w2) := fun ⟨ha, hw⟩ => h ⟨ha.symm, hw.symm⟩
  unfold fetch_plan upsert_plan
  cases hAny : table.any (planKeyMatches a1 w1)
  · simp only [hAny, Bool.false_eq_true, if_false]
    rw [List.find?_append]
    have hne : planKeyMatches a2 w2 (⟨a1, w1, o, ac, ob, rc⟩ : PlanRow) = false := by
      simp only [planKeyMatches, Bool.and_eq_false_iff, beq_eq_false_iff_ne, ne_eq]
      tauto
    rw [List.find?_cons_of_neg _ (by simp [hne]), List.find?_nil, Option.or_none]
  · simp only [hAny, if_true]
    rw [find?_map_of_fix]
    · intro x
      cases hx : planKeyMatches a1 w1 x
      · simp [hx]
      · simp [hx, planKeyMatches]
    · intro x hx
      have hkey : x.account_id = a2 ∧ x.week_start = w2 := by
        simpa only [planKeyMatches, Bool.and_eq_true, beq_iff_eq] using hx
      rw [if_neg]
      simp only [planKeyMatches, hkey.1, hkey.2, Bool.and_eq_true, beq_iff_eq]
      tauto

theorem upsert_isolation_witness :
    ¬("A1" = "A1" ∧ 738893 = 738886) ∧
    fetch_plan (upsert_plan [] "A1" 738886 (some "x1") none none none)
        "A1" 738893 = fetch_plan [] "A1" 738893 :=
  ⟨by decide, upsert_isolation [] "A1" "A1" 738886 738893 _ _ _ _ (by decide)⟩

/-- Claim C2: the normalizer maps every calendar date (ordinal at least 1)
to a `w` with `w ≤ d`, `d - w < 7` days and `w` a Monday; the result is
exactly the date minus its weekday index, and a string that parses is
normalized to the Monday on or before the encoded date. -/
theorem normalize_week_correct (o : Nat) (h : 1 ≤ o) :
    monday_of_week o ≤ o ∧ o - monday_of_week o < 7 ∧
    weekday (monday_of_week o) = 0 ∧
    monday_of_week o = o - weekday o ∧
    ∀ today s, strptimeYMD s = some o →
      parse_week_start today (some s) = monday_of_week o := by
  refine ⟨?_, ?_, ?_, rfl, ?_⟩
  · unfold monday_of_week weekday; omega
  · unfold monday_of_week weekday; omega
  · unfold monday_of_week weekday; omega
  · intro today s hs
    rw [parse_week_start_some]
    have hne : s ≠ "" := by
      intro he
      rw [he, (by decide : strptimeYMD "" = none)] at hs
      cases hs
    rw [if_neg hne, hs]

theorem normalize_week_correct_witness :
    1 ≤ 738888 ∧ strptimeYMD "2024-01-03" = some 738888 ∧
    parse_week_start 1 (some "2024-01-03") = monday_of_week 738888 :=
  ⟨by decide, by decide,
    (normalize_week_correct 738888 (by decide)).2.2.2.2 1 "2024-01-03" (by decide)⟩

/-- Claim C4: absent and malformed date input are treated identically and
never raised: `parse_week_start` on `None`, on a fixed junk string, and
on any string `strptime` rejects, returns the Monday of the current
server-local date. -/
theorem parse_week_start_fallback (today : Nat) :
    parse_week_start today none = monday_of_week today ∧
    parse_week_start today (some "not-a-date") = monday_of_week today ∧
    ∀ s, strptimeYMD s = none →
      parse_week_start today (some s) = monday_of_week today := by
  refine ⟨rfl, ?_, ?_⟩
  · rw [parse_week_start_some]
    rw [if_neg (by decide), (by decide : strptimeYMD "not-a-date" = none)]
  · intro s hs
    rw [parse_week_start_some]
    by_cases he : s = ""
    · rw [if_pos he]
    · rw [if_neg he, hs]

theorem parse_week_start_fallback_witness :
    strptimeYMD "junk" = none ∧
    parse_week_start 738888 (some "junk") = monday_of_week 738888 :=
  ⟨by decide, (parse_week_start_fallback 738888).2.2 "junk" (by decide)⟩

/-- Claim C9: the normalizer accepts exactly the strict `%Y-%m-%d`
format: the strictly formatted string is normalized to the Monday of the
encoded date, while a valid date written in another format
(`2024/01/01`, `Jan 1, 2024`) is rejected by `strptime` and falls back
to the Monday of the current date; every accepted string yields the
Monday of its encoded date. -/
theorem parse_week_start_strict_format (today : Nat) :
    parse_week_start today (some "2024-01-01") =
      monday_of_week (toOrdinal 2024 1 1) ∧
    strptimeYMD "2024/01/01" = none ∧
    strptimeYMD "Jan 1, 2024" = none ∧
    parse_week_start today (some "2024/01/01") = monday_of_week today ∧
    parse_week_start today (some "Jan 1, 2024") = monday_of_week today ∧
    ∀ s o, strptimeYMD s = some o →
      parse_week_start today (some s) = monday_of_week o := by
  refine ⟨?_, by decide, by decide, ?_, ?_, ?_⟩
  · rw [parse_week_start_some]
    rw [if_neg (by decide),
      (by decide : strptimeYMD "2024-01-01" = some (toOrdinal 2024 1 1))]
  · rw [parse_week_start_some]
    rw [if_neg (by decide), (by decide : strptimeYMD "2024/01/01" = none)]
  · rw [parse_week_start_some]
    rw [if_neg (by decide), (by decide : strptimeYMD "Jan 1, 2024" = none)]
  · intro s o hs
    rw [parse_week_start_some]
    have hne : s ≠ "" := by
      intro he
      rw [he, (by decide : strptimeYMD "" = none)] at hs
      cases hs
    rw [if_neg hne, hs]

theorem parse_week_start_strict_format_witness :
    strptimeYMD "2024-02-29" = some (toOrdinal 2024 2 29) ∧
    parse_week_start 5 (some "2024-02-29") = monday_of_week (toOrdinal 2024 2 29) :=
  ⟨by decide,
    (parse_week_start_strict_format 5).2.2.2.2.2 "2024-02-29"
      (toOrdinal 2024 2 29) (by decide)⟩

/-- Claim C10: week normalization is idempotent: `monday_of_week` is a
fixed point of itself on every ordinal, and every value
`parse_week_start` produces (hence every `week_start` key the handlers
pass to the plan store) is a fixed point of normalization. -/
theorem week_normalization_idempotent :
    (∀ o, monday_of_week (monday_of_week o) = monday_of_week o) ∧
    ∀ today v, monday_of_week (parse_week_start today v) =
      parse_week_start today v := by
  refine ⟨monday_of_week_idem, ?_⟩
  intro today v
  match v with
  | none => exact monday_of_week_idem today
  | some s =>
    rw [parse_week_start_some]
    by_cases he : s = ""
    · rw [if_pos he]
      exact monday_of_week_idem today
    · rw [if_neg he]
      cases hs : strptimeYMD s
      · exact monday_of_week_idem today
      · exact monday_of_week_idem _

/-- Claim C7: the stored contact role is always in
`{buyer, manager, owner}`: `ui_add_contact` appends a row whose role is
the trimmed, lower-cased input when that is in the allowed set and
`"buyer"` otherwise; in particular `"Manager "` is stored as
`"manager"` and `"admin"` as `"buyer"` (the coercion is total, so
malformed role input is never an error). -/
theorem contact_role_allowlist (table : List Contact) (id : String)
    (created_at : Nat) (account_id name role : String)
    (phone email notes : Option String) :
    ui_add_contact table id created_at account_id name role phone email notes =
      table ++ [⟨id, account_id, name, normalizeRole role, phone, email, notes,
        created_at⟩] ∧
    (normalizeRole role = "buyer" ∨ normalizeRole role = "manager" ∨
      normalizeRole role = "owner") ∧
    ((lower (strip role) = "buyer" ∨ lower (strip role) = "manager" ∨
        lower (strip role) = "owner") →
      normalizeRole role = lower (strip role)) ∧
    normalizeRole "Manager " = "manager" ∧
    normalizeRole "admin" = "buyer" := by
  refine ⟨rfl, ?_, ?_, by decide, by decide⟩
  · unfold normalizeRole
    by_cases hr : lower (strip role) = "buyer" ∨ lower (strip role) = "manager" ∨
        lower (strip role) = "owner"
    · rw [if_pos hr]
      exact hr
    · rw [if_neg hr]
      left
      rfl
  · intro hr
    unfold normalizeRole
    rw [if_pos hr]

theorem contact_role_allowlist_witness :
    (lower (strip "Owner") = "buyer" ∨ lower (strip "Owner") = "manager" ∨
      lower (strip "Owner") = "owner") ∧
    normalizeRole "Owner" = lower (strip "Owner") :=
  ⟨by decide,
    (contact_role_allowlist [] "id1" 1 "A1" "Pat" "Owner" none none none).2.2.1
      (by decide)⟩

/-- Two rows appended last with the two largest timestamps sort to the
front of the descending order, newest first. -/
lemma insertionSort_append_newest (l : List Contact) (c1 c2 : Contact)
    (h1 : ∀ c ∈ l, c.created_at < c1.created_at)
    (h12 : c1.created_at < c2.created_at) :
    List.insertionSort createdDesc (l ++ [c1, c2]) =
      c2 :: c1 :: List.insertionSort createdDesc l := by
  induction l with
  | nil =>
    simp only [List.nil_append, List.insertionSort, List.orderedInsert]
    rw [if_neg (show ¬createdDesc c1 c2 from by unfold createdDesc; omega)]
  | cons x t ih =>
    have hx : x.created_at < c1.created_at := h1 x (List.mem_cons_self x t)
    have iht := ih fun c hc => h1 c (List.mem_cons_of_mem x hc)
    simp only [List.cons_append, List.insertionSort, List.append_eq]
    rw [iht]
    simp only [List.orderedInsert]
    rw [if_neg (show ¬createdDesc x c2 from by unfold createdDesc; omega),
      if_neg (show ¬createdDesc x c1 from by unfold createdDesc; omega)]

/-- Claim C8: `fetch_contacts` lists an account's contacts newest first:
after two successive inserts for the account (database timestamps
increase across inserts), the listing starts with the most recently
added contact, then the first added one, then the account's earlier
contacts. -/
theorem fetch_contacts_newest_first (table : List Contact) (a : String)
    (id1 id2 n1 n2 r1 r2 : String) (p1 e1 no1 p2 e2 no2 : Option String)
    (t1 t2 : Nat) (hold : ∀ c ∈ table, c.created_at < t1) (h12 : t1 < t2) :
    fetch_contacts (insert_contact (insert_contact table id1 t1 a n1 r1 p1 e1 no1)
        id2 t2 a n2 r2 p2 e2 no2) a =
      contactOut ⟨id2, a, n2, r2, p2, e2, no2, t2⟩ ::
        contactOut ⟨id1, a, n1, r1, p1, e1, no1, t1⟩ ::
          fetch_contacts table a := by
  unfold fetch_contacts insert_contact
  rw [List.append_assoc, List.singleton_append]
  have hfl : List.filter (fun c : Contact => c.account_id == a)
      (table ++ [⟨id1, a, n1, r1, p1, e1, no1, t1⟩,
        ⟨id2, a, n2, r2, p2, e2, no2, t2⟩]) =
      List.filter (fun c : Contact => c.account_id == a) table ++
        [⟨id1, a, n1, r1, p1, e1, no1, t1⟩,
          ⟨id2, a, n2, r2, p2, e2, no2, t2⟩] := by
    rw [List.filter_append]
    simp
  rw [hfl, insertionSort_append_newest _ _ _
    (fun c hc => hold c (List.mem_filter.mp hc).1) h12]
  rfl

theorem fetch_contacts_newest_first_witness :
    (∀ c ∈ ([] : List Contact), c.created_at < 1) ∧ 1 < 2 ∧
    fetch_contacts (insert_contact (insert_contact [] "id1" 1 "A1" "Ann" "buyer"
        none none none) "id2" 2 "A1" "Bob" "owner" none none none) "A1" =
      contactOut ⟨"id2", "A1", "Bob", "owner", none, none, none, 2⟩ ::
        contactOut ⟨"id1", "A1", "Ann", "buyer", none, none, none, 1⟩ ::
          fetch_contacts [] "A1" :=
  ⟨by simp, by decide,
    fetch_contacts_newest_first [] "A1" "id1" "id2" "Ann" "Bob" "buyer" "owner"
      none none none none none none 1 2 (by simp) (by decide)⟩

end DevWorkflows
